import Mathlib

/-!
Shallow embedding of the garyapi cache / routing / dispatch core
(src/types.rs, src/routing.rs, src/cache.rs, src/handlers.rs).

Rust `String` values are modelled as `List Char` (Rust strings are
sequences of Unicode scalar values; every character this development
inspects is ASCII, so char indices and Rust byte indices coincide).
Byte payloads (`bytes::Bytes`, `Vec<u8>`) are modelled as `List Nat`.
The filesystem is modelled as an explicit function argument, and the
random number generator `fastrand::usize(..len)` as an arbitrary
natural number reduced modulo the list length.
-/

namespace GaryApi

/-- Rust `String` / `&str` modelled as a list of Unicode scalar values. -/
abbrev Str := List Char

/-- Byte payloads (`bytes::Bytes`, `Vec<u8>`). -/
abbrev Bytes := List Nat

/-- `ResourceType` from src/types.rs: the two resource families. -/
inductive ResourceType where
  | Gary
  | Goober
  deriving DecidableEq, Repr

/-- `ResourceType::default_image` from src/types.rs. -/
def ResourceType.default_image : ResourceType → Str
  | .Gary => "Gary76.jpg".toList
  | .Goober => "goober8.jpg".toList

/-- `FileName::new` from src/types.rs: rejects strings containing `/` or
`\`, then rejects the empty string, otherwise wraps the string unchanged. -/
def FileName.new (name : Str) : Except Str Str :=
  if name.contains '/' || name.contains '\\' then
    .error "File name cannot contain path separators".toList
  else if name.isEmpty then
    .error "File name cannot be empty".toList
  else
    .ok name

/-- Index of the last `.` in the string, modelling `str::rfind('.')`
(`.` is ASCII, so the Rust byte index and the char index agree on the
comparisons and the slice taken in `FileName::extension`). -/
def rfindDot : Str → Option Nat
  | [] => none
  | c :: cs =>
    match rfindDot cs with
    | some i => some (i + 1)
    | none => if c = '.' then some 0 else none

/-- `FileName::extension` from src/types.rs: the substring strictly after
the last `.`, unless the `.` is absent, first, or last. -/
def FileName.extension (s : Str) : Option Str :=
  match rfindDot s with
  | some idx => if 0 < idx ∧ idx < s.length - 1 then some (s.drop (idx + 1)) else none
  | none => none

/-- `impl From<FileName> for CacheKey` from src/types.rs: the key is the
bare file name, with no resource-kind component. -/
def CacheKey.from_filename (f : Str) : Str := f

/-- `DirectoryPath::join` from src/types.rs. -/
def DirectoryPath.join (dir : Str) (filename : Str) : Str :=
  dir ++ "/".toList ++ filename

/-- `Route` from src/routing.rs. -/
inductive Route where
  | Docs
  | GaryCount
  | GooberCount
  | GaryUrl
  | GooberUrl
  | Quote
  | Joke
  | GaryImage
  | GooberImage
  | GaryFile (name : Str)
  | GooberFile (name : Str)
  | NotFound
  deriving DecidableEq, Repr

/-- `Route::from_path` from src/routing.rs: Rust `match` arms are tried
top to bottom, so the literal arms come first, then the four guard arms
in source order, then the catch-all. -/
def Route.from_path (p : Str) : Route :=
  if p = "/".toList then .Docs
  else if p = "/gary/count".toList then .GaryCount
  else if p = "/goober/count".toList then .GooberCount
  else if p = "/gary".toList then .GaryUrl
  else if p = "/goober".toList then .GooberUrl
  else if p = "/quote".toList then .Quote
  else if p = "/joke".toList then .Joke
  else if List.isPrefixOf "/gary/image/".toList p then .GaryImage
  else if List.isPrefixOf "/goober/image/".toList p then .GooberImage
  else if List.isPrefixOf "/Gary/".toList p then
    let filename := p.drop 6
    if filename.isEmpty then .NotFound
    else
      match FileName.new filename with
      | .ok f => .GaryFile f
      | .error _ => .NotFound
  else if List.isPrefixOf "/Goober/".toList p then
    let filename := p.drop 8
    if filename.isEmpty then .NotFound
    else
      match FileName.new filename with
      | .ok f => .GooberFile f
      | .error _ => .NotFound
  else .NotFound

example : Route.from_path "/Gary/pic.jpg".toList = .GaryFile "pic.jpg".toList := by decide
example : Route.from_path "/Gary/".toList = .NotFound := by decide
example : FileName.extension "a.jpg".toList = some "jpg".toList := by decide

/-- `Config` from src/config.rs (the fields the core consults). -/
structure Config where
  gary_dir : Str
  goober_dir : Str
  deriving Repr

/-- The `let dir = match resource { ... }` binding in
`RequestDispatcher::serve_image_file` (src/handlers.rs). -/
def Config.dir_for (config : Config) : ResourceType → Str
  | .Gary => config.gary_dir
  | .Goober => config.goober_dir

/-- `FileCache` from src/cache.rs.  The `AHashMap<String, Bytes>` image
cache is modelled as an association list whose `insert` erases the old
binding for the key and conses the new one (insert-or-overwrite). -/
structure FileCache where
  gary_files : List Str
  goober_files : List Str
  quotes : List Bytes
  jokes : List Bytes
  image_cache : List (Str × Bytes)
  deriving Repr

/-- `FileCache::new` from src/cache.rs: every list starts empty. -/
def FileCache.new : FileCache := ⟨[], [], [], [], []⟩

/-- `FileCache::get_files` from src/cache.rs. -/
def FileCache.get_files (c : FileCache) : ResourceType → List Str
  | .Gary => c.gary_files
  | .Goober => c.goober_files

/-- `FileCache::random_index` from src/cache.rs: `fastrand::usize(..len)`
draws uniformly from `[0, len)`; the draw is modelled by an arbitrary
natural number `rnd` reduced modulo `len`. -/
def FileCache.random_index (rnd len : Nat) : Nat := rnd % len

/-- `Cache::get_random_file` for `FileCache` from src/cache.rs. -/
def FileCache.get_random_file (c : FileCache) (resource : ResourceType) (rnd : Nat) :
    Option Str :=
  let files := c.get_files resource
  if files.isEmpty then none
  else files.get? (FileCache.random_index rnd files.length)

/-- `Cache::get_random_quote` for `FileCache` from src/cache.rs. -/
def FileCache.get_random_quote (c : FileCache) (rnd : Nat) : Option Bytes :=
  if c.quotes.isEmpty then none
  else c.quotes.get? (FileCache.random_index rnd c.quotes.length)

/-- `Cache::get_random_joke` for `FileCache` from src/cache.rs. -/
def FileCache.get_random_joke (c : FileCache) (rnd : Nat) : Option Bytes :=
  if c.jokes.isEmpty then none
  else c.jokes.get? (FileCache.random_index rnd c.jokes.length)

/-- `Cache::get_image` for `FileCache` from src/cache.rs: exact-key
lookup in the image map. -/
def FileCache.get_image (c : FileCache) (key : Str) : Option Bytes :=
  c.image_cache.lookup key

/-- `Cache::store_image` for `FileCache` from src/cache.rs:
`HashMap::insert`, i.e. insert-or-overwrite of one key. -/
def FileCache.store_image (c : FileCache) (key : Str) (data : Bytes) : FileCache :=
  { c with image_cache := (key, data) :: c.image_cache.filter (fun e => e.1 != key) }

/-- `Cache::update_files` for `FileCache` from src/cache.rs: whole-list
replacement of the list for one resource kind. -/
def FileCache.update_files (c : FileCache) (resource : ResourceType) (files : List Str) :
    FileCache :=
  match resource with
  | .Gary => { c with gary_files := files }
  | .Goober => { c with goober_files := files }

/-- `Cache::update_quotes` for `FileCache` from src/cache.rs. -/
def FileCache.update_quotes (c : FileCache) (quotes : List Bytes) : FileCache :=
  { c with quotes := quotes }

/-- `Cache::update_jokes` for `FileCache` from src/cache.rs. -/
def FileCache.update_jokes (c : FileCache) (jokes : List Bytes) : FileCache :=
  { c with jokes := jokes }

/-- `Cache::file_count` for `FileCache` from src/cache.rs. -/
def FileCache.file_count (c : FileCache) (resource : ResourceType) : Nat :=
  (c.get_files resource).length

/-- The size gate used by `preload_images` and `serve_image_file`:
`1024 * 1024` bytes. -/
def sizeGate : Nat := 1024 * 1024

/-- One directory entry seen by `preload_images`.  The filesystem is
static during a load, so `metadata.len()` is the length of `content`. -/
structure DirEntry where
  name : Str
  content : Bytes
  is_file : Bool
  deriving Repr

/-- `DefaultCacheLoader::preload_images` from src/cache.rs: for each
regular file whose size is strictly below 1 MiB, store its content in
the image cache keyed by its bare file name. -/
def preload_images (entries : List DirEntry) (cache : FileCache) : FileCache :=
  match entries with
  | [] => cache
  | e :: rest =>
    let cache' :=
      if e.is_file && decide (e.content.length < sizeGate) then
        cache.store_image e.name e.content
      else cache
    preload_images rest cache'

/-- The dispatcher outcomes the claims talk about: an image payload
(`fast::image`) or the `GaryError::FileError` carrying the I/O error. -/
inductive Outcome where
  | Image (content : Bytes)
  | FileError (e : Nat)
  deriving DecidableEq, Repr

/-- The filesystem collaborator for whole-file reads: `tokio::fs::read`
either yields the bytes or an I/O error (identified by a number). -/
abbrev ReadFs := Str → Except Nat Bytes

/-- `RequestDispatcher::serve_image_file` from src/handlers.rs: compute
the cache key from the file name; on a hit return the cached bytes; on a
miss read `dir/filename` from disk; on success store the bytes iff their
length is strictly below 1 MiB and return them; on failure return
`FileError` with that error. Returns the outcome and the cache state. -/
def serve_image_file (fs : ReadFs) (config : Config) (cache : FileCache)
    (resource : ResourceType) (filename : Str) : Outcome × FileCache :=
  let cache_key := CacheKey.from_filename filename
  match cache.get_image cache_key with
  | some content => (.Image content, cache)
  | none =>
    let dir := config.dir_for resource
    let file_path := DirectoryPath.join dir filename
    match fs file_path with
    | .ok content =>
      if content.length < sizeGate then
        (.Image content, cache.store_image cache_key content)
      else
        (.Image content, cache)
    | .error e => (.FileError e, cache)

/-- `RequestDispatcher::handle_random_image_route` from src/handlers.rs:
a random file name, or the per-kind default on a selection miss
(`unwrap_or_else`), then the shared image-serving path. -/
def handle_random_image_route (fs : ReadFs) (config : Config) (cache : FileCache)
    (resource : ResourceType) (rnd : Nat) : Outcome × FileCache :=
  let filename := (cache.get_random_file resource rnd).getD resource.default_image
  serve_image_file fs config cache resource filename

/-- Outcomes of the text routes: a content payload (`fast::quote` /
`fast::joke`) or the explicit error payload (`fast::error`). -/
inductive TextOutcome where
  | Payload (content : Bytes)
  | ErrorMsg (message : Str)
  deriving DecidableEq, Repr

/-- `RequestDispatcher::handle_quote_route` from src/handlers.rs. -/
def handle_quote_route (cache : FileCache) (rnd : Nat) : TextOutcome :=
  match cache.get_random_quote rnd with
  | some quote => .Payload quote
  | none => .ErrorMsg "No quotes available".toList

/-- `RequestDispatcher::handle_joke_route` from src/handlers.rs. -/
def handle_joke_route (cache : FileCache) (rnd : Nat) : TextOutcome :=
  match cache.get_random_joke rnd with
  | some joke => .Payload joke
  | none => .ErrorMsg "No jokes available".toList

/-- The fast-path test in `DefaultCacheLoader::escape_json_string`:
`c.is_ascii() && c != '"' && c != '\\' && c != '\n' && c != '\r' && c != '\t'`. -/
def is_safe_char (c : Char) : Bool :=
  decide (c.toNat < 128) && c != '"' && c != '\\' && c != '\n' && c != '\r' && c != '\t'

/-- Lowercase hex digit, as used by serde_json's escape writer. -/
def hexDigit (n : Nat) : Char :=
  if n < 10 then Char.ofNat (48 + n) else Char.ofNat (87 + n)

/-- One character of `serde_json::to_string` output for a string: `"`
and `\` get a backslash escape, the five short control escapes are used
for backspace, tab, newline, form feed and carriage return, any other
control character below U+0020 becomes `\u00xx`, and every other
character (ASCII or not) is emitted verbatim. -/
def serde_escape_char (c : Char) : Str :=
  if c = '"' then ['\\', '"']
  else if c = '\\' then ['\\', '\\']
  else if c.toNat < 32 then
    if c.toNat = 8 then ['\\', 'b']
    else if c.toNat = 9 then ['\\', 't']
    else if c.toNat = 10 then ['\\', 'n']
    else if c.toNat = 12 then ['\\', 'f']
    else if c.toNat = 13 then ['\\', 'r']
    else ['\\', 'u', '0', '0', hexDigit (c.toNat / 16), hexDigit (c.toNat % 16)]
  else [c]

/-- `serde_json::to_string(s)` for a string `s`: the escaped body
surrounded by double quotes. -/
def serde_to_string (s : Str) : Str :=
  '"' :: (s.map serde_escape_char).flatten ++ ['"']

/-- Rust `str::trim_matches('"')`: repeatedly removes `"` from both
ends (not just one from each end). -/
def trim_quote_chars (s : Str) : Str :=
  ((s.dropWhile (· = '"')).reverse.dropWhile (· = '"')).reverse

/-- `DefaultCacheLoader::escape_json_string` from src/cache.rs: the
element verbatim when every character passes the fast-path test,
otherwise the serde encoding with `trim_matches('"')` applied. -/
def escape_json_string (s : Str) : Str :=
  if s.all is_safe_char then s
  else trim_quote_chars (serde_to_string s)

/-- Value of a hexadecimal digit character. -/
def hexVal (c : Char) : Option Nat :=
  if '0' ≤ c ∧ c ≤ '9' then some (c.toNat - 48)
  else if 'a' ≤ c ∧ c ≤ 'f' then some (c.toNat - 87)
  else if 'A' ≤ c ∧ c ≤ 'F' then some (c.toNat - 55)
  else none

/-- Specification-side semantics of a JSON string-literal body
(RFC 8259): `json_unescape b = some s` means that `"` ++ `b` ++ `"` is a
valid JSON string literal denoting `s`.  A raw `"`, a raw control
character below U+0020, a dangling backslash or an unknown escape makes
the body invalid. -/
def json_unescape : Str → Option Str
  | [] => some []
  | '\\' :: '"' :: t => (json_unescape t).map (fun r => '"' :: r)
  | '\\' :: '\\' :: t => (json_unescape t).map (fun r => '\\' :: r)
  | '\\' :: '/' :: t => (json_unescape t).map (fun r => '/' :: r)
  | '\\' :: 'b' :: t => (json_unescape t).map (fun r => Char.ofNat 8 :: r)
  | '\\' :: 'f' :: t => (json_unescape t).map (fun r => Char.ofNat 12 :: r)
  | '\\' :: 'n' :: t => (json_unescape t).map (fun r => '\n' :: r)
  | '\\' :: 'r' :: t => (json_unescape t).map (fun r => Char.ofNat 13 :: r)
  | '\\' :: 't' :: t => (json_unescape t).map (fun r => '\t' :: r)
  | '\\' :: 'u' :: h1 :: h2 :: h3 :: h4 :: t =>
    match hexVal h1, hexVal h2, hexVal h3, hexVal h4 with
    | some a, some b, some c, some d =>
      (json_unescape t).map (fun r => Char.ofNat (((a * 16 + b) * 16 + c) * 16 + d) :: r)
    | _, _, _, _ => none
  | '\\' :: _ => none
  | c :: rest =>
    if c = '"' then none
    else if c.toNat < 32 then none
    else (json_unescape rest).map (fun r => c :: r)

/-- The cache states reachable from the empty cache through the
operations the system performs on it: the loader's image preload and
whole-list updates, and the dispatcher's read-through image serving
(which covers both the specific-file route and the random-image route,
whose resolved name is an arbitrary `Str`).  The text routes never
write. -/
inductive ReachableCache : FileCache → Prop where
  | empty : ReachableCache FileCache.new
  | preload (entries : List DirEntry) {c : FileCache} :
      ReachableCache c → ReachableCache (preload_images entries c)
  | serve (fs : ReadFs) (config : Config) (resource : ResourceType) (filename : Str)
      {c : FileCache} : ReachableCache c →
      ReachableCache (serve_image_file fs config c resource filename).2
  | update_files (resource : ResourceType) (files : List Str) {c : FileCache} :
      ReachableCache c → ReachableCache (c.update_files resource files)
  | update_quotes (quotes : List Bytes) {c : FileCache} :
      ReachableCache c → ReachableCache (c.update_quotes quotes)
  | update_jokes (jokes : List Bytes) {c : FileCache} :
      ReachableCache c → ReachableCache (c.update_jokes jokes)

example : escape_json_string ['"'] = ['\\'] := by decide
example : json_unescape ['\\'] = none := by decide
example : escape_json_string "ab".toList = "ab".toList := by decide
example : json_unescape "a\\nb".toList = some ['a', '\n', 'b'] := by decide

/-! Helper lemmas about association-list lookup, shared by several
claims below. -/

theorem lookup_filter_ne (l : List (Str × Bytes)) (k k' : Str) (h : k' ≠ k) :
    List.lookup k' (l.filter fun e => e.1 != k) = List.lookup k' l := by
  induction l with
  | nil => rfl
  | cons a t ih =>
    obtain ⟨a1, a2⟩ := a
    by_cases hak : a1 = k
    · subst hak
      have hb : (k' == a1) = false := by simp [h]
      have hf : (a1 != a1) = false := by simp
      simp [List.filter_cons, List.lookup, hb, hf, ih]
    · have hf : (a1 != k) = true := by simp [hak]
      by_cases hka : k' = a1
      · subst hka
        simp [List.filter_cons, List.lookup, hf]
      · have hb : (k' == a1) = false := by simp [hka]
        simp [List.filter_cons, List.lookup, hf, hb, ih]

theorem lookup_mem {β : Type} (l : List (Str × β)) (k : Str) (v : β)
    (h : List.lookup k l = some v) : ∃ k', (k', v) ∈ l := by
  induction l with
  | nil => simp [List.lookup] at h
  | cons a t ih =>
    obtain ⟨a1, a2⟩ := a
    by_cases hka : k = a1
    · subst hka
      have hb : (k == k) = true := by simp
      simp [List.lookup, hb] at h
      exact ⟨k, by simp [h]⟩
    · have hb : (k == a1) = false := by simp [hka]
      simp [List.lookup, hb] at h
      obtain ⟨k', hk'⟩ := ih h
      exact ⟨k', by simp [hk']⟩

/-- C1: `Route::from_path` satisfies the five exact cases: `"/Gary/"`
(empty remainder) and `"/Gary/a/b.jpg"` (embedded separator) both map to
`NotFound`, `"/Gary/pic.jpg"` maps to the specific-file route for Gary
carrying the name `pic.jpg`, `"/quote"` maps to `Quote`, and
`"/nonsense"` maps to `NotFound`. -/
theorem route_from_path_exact_cases :
    Route.from_path "/Gary/".toList = Route.NotFound ∧
    Route.from_path "/Gary/pic.jpg".toList = Route.GaryFile "pic.jpg".toList ∧
    Route.from_path "/Gary/a/b.jpg".toList = Route.NotFound ∧
    Route.from_path "/quote".toList = Route.Quote ∧
    Route.from_path "/nonsense".toList = Route.NotFound := by
  decide

/-- C5: after `store_image(k, B)`, `get_image(k)` returns `Some(B)`
(round trip, last writer wins), and `get_image` of any other key is
unchanged (no other key is evicted or modified). -/
theorem store_image_get_image (c : FileCache) (k k' : Str) (v : Bytes) :
    (c.store_image k v).get_image k = some v ∧
    (k' ≠ k → (c.store_image k v).get_image k' = c.get_image k') := by
  constructor
  · simp [FileCache.store_image, FileCache.get_image, List.lookup]
  · intro h
    have hb : (k' == k) = false := by simp [h]
    simp [FileCache.store_image, FileCache.get_image, List.lookup, hb,
      lookup_filter_ne _ _ _ h]

/-- Witness for C5 at concrete keys and bytes. -/
theorem store_image_get_image_witness :
    ("b.jpg".toList ≠ "a.jpg".toList) ∧
    ((FileCache.new.store_image "a.jpg".toList [1]).get_image "a.jpg".toList = some [1] ∧
     (FileCache.new.store_image "a.jpg".toList [1]).get_image "b.jpg".toList =
       FileCache.new.get_image "b.jpg".toList) :=
  ⟨by decide,
    (store_image_get_image FileCache.new "a.jpg".toList "b.jpg".toList [1]).1,
    (store_image_get_image FileCache.new "a.jpg".toList "b.jpg".toList [1]).2 (by decide)⟩

/-- C7: with an empty quote list the quote route resolves to the
explicit `No quotes available` error payload for every random draw, and
with an empty joke list the joke route resolves to `No jokes available`;
neither is a fault. -/
theorem empty_text_routes_error_payload (c : FileCache) (rnd : Nat) :
    (c.quotes = [] → handle_quote_route c rnd = .ErrorMsg "No quotes available".toList) ∧
    (c.jokes = [] → handle_joke_route c rnd = .ErrorMsg "No jokes available".toList) := by
  constructor <;> intro h <;>
    simp [handle_quote_route, handle_joke_route, FileCache.get_random_quote,
      FileCache.get_random_joke, h]

/-- Witness for C7 at the empty cache. -/
theorem empty_text_routes_error_payload_witness :
    (FileCache.new.quotes = [] ∧ FileCache.new.jokes = []) ∧
    (handle_quote_route FileCache.new 0 = .ErrorMsg "No quotes available".toList ∧
     handle_joke_route FileCache.new 0 = .ErrorMsg "No jokes available".toList) :=
  ⟨⟨rfl, rfl⟩,
    (empty_text_routes_error_payload FileCache.new 0).1 rfl,
    (empty_text_routes_error_payload FileCache.new 0).2 rfl⟩

/-- C8: `FileName::new(s)` errors exactly when `s` is empty or contains
`/` or `\`, and otherwise returns the string unchanged. -/
theorem filename_new_spec (s : Str) :
    ((∃ e, FileName.new s = .error e) ↔ (s = [] ∨ '/' ∈ s ∨ '\\' ∈ s)) ∧
    (s ≠ [] → '/' ∉ s → '\\' ∉ s → FileName.new s = .ok s) := by
  unfold FileName.new
  by_cases h1 : '/' ∈ s <;> by_cases h2 : '\\' ∈ s <;> by_cases h3 : s = [] <;>
    simp [h1, h2, h3]

/-- Witness for C8 at a concrete valid file name. -/
theorem filename_new_spec_witness :
    ("pic.jpg".toList ≠ ([] : Str) ∧ '/' ∉ "pic.jpg".toList ∧ '\\' ∉ "pic.jpg".toList) ∧
    FileName.new "pic.jpg".toList = .ok "pic.jpg".toList :=
  ⟨by decide, (filename_new_spec "pic.jpg".toList).2 (by decide) (by decide) (by decide)⟩

/-- A concrete configuration used by witnesses. -/
def cfg0 : Config := ⟨"gary_images".toList, "goober_images".toList⟩

/-- A filesystem in which every read fails with error 7. -/
def fsFail : ReadFs := fun _ => .error 7

/-- A filesystem in which every read yields the byte `[9]`. -/
def fsNine : ReadFs := fun _ => .ok [9]

/-- A filesystem in which every read yields the byte `[5]`. -/
def fsFive : ReadFs := fun _ => .ok [5]

/-- C6: on an image-cache miss where the disk read of the joined path
fails, `serve_image_file` yields `FileError` carrying that exact error
and leaves the cache unchanged — no retry, no default-file fallback; the
per-kind default name is substituted only on a selection miss, i.e. when
`get_random_file` returns none in `handle_random_image_route`. -/
theorem serve_read_failure (fs : ReadFs) (config : Config) (c : FileCache)
    (resource : ResourceType) (filename : Str) (e : Nat) (rnd : Nat)
    (hmiss : c.get_image (CacheKey.from_filename filename) = none)
    (hread : fs (DirectoryPath.join (config.dir_for resource) filename) = .error e) :
    serve_image_file fs config c resource filename = (.FileError e, c) ∧
    (c.get_random_file resource rnd = none →
      handle_random_image_route fs config c resource rnd =
        serve_image_file fs config c resource resource.default_image) := by
  constructor
  · simp [serve_image_file, hmiss, hread]
  · intro h
    simp [handle_random_image_route, h]

/-- Witness for C6: empty cache, a filesystem whose reads all fail. -/
theorem serve_read_failure_witness :
    (FileCache.new.get_image (CacheKey.from_filename "x.jpg".toList) = none ∧
     fsFail (DirectoryPath.join (cfg0.dir_for .Gary) "x.jpg".toList) = .error 7 ∧
     FileCache.new.get_random_file .Gary 0 = none) ∧
    (serve_image_file fsFail cfg0 FileCache.new .Gary "x.jpg".toList =
       (.FileError 7, FileCache.new) ∧
     handle_random_image_route fsFail cfg0 FileCache.new .Gary 0 =
       serve_image_file fsFail cfg0 FileCache.new .Gary (ResourceType.default_image .Gary)) :=
  ⟨⟨rfl, rfl, rfl⟩,
    (serve_read_failure fsFail cfg0 FileCache.new .Gary "x.jpg".toList 7 0 rfl rfl).1,
    (serve_read_failure fsFail cfg0 FileCache.new .Gary "x.jpg".toList 7 0 rfl rfl).2 rfl⟩

/-- C10: the cache key derived from a file name is the bare name with no
resource-kind component, so once bytes are cached under a name, the
image-serving path for either kind returns them for every filesystem
(no disk access) and leaves the cache unchanged. -/
theorem image_cache_shared_across_kinds (fs : ReadFs) (config : Config) (c : FileCache)
    (resource : ResourceType) (f : Str) (v : Bytes)
    (hhit : c.get_image (CacheKey.from_filename f) = some v) :
    CacheKey.from_filename f = f ∧
    serve_image_file fs config c resource f = (.Image v, c) :=
  ⟨rfl, by simp [serve_image_file, hhit]⟩

/-- Witness for C10: bytes cached by a Gary-side read-through are served
for the Goober kind against a filesystem holding different content. -/
theorem image_cache_shared_across_kinds_witness :
    ((serve_image_file fsNine cfg0 FileCache.new .Gary "x.jpg".toList).2.get_image
        (CacheKey.from_filename "x.jpg".toList) = some [9]) ∧
    (CacheKey.from_filename "x.jpg".toList = "x.jpg".toList ∧
     serve_image_file fsFive cfg0
         (serve_image_file fsNine cfg0 FileCache.new .Gary "x.jpg".toList).2 .Goober
         "x.jpg".toList =
       (.Image [9], (serve_image_file fsNine cfg0 FileCache.new .Gary "x.jpg".toList).2)) :=
  ⟨by decide,
    image_cache_shared_across_kinds fsFive cfg0
      (serve_image_file fsNine cfg0 FileCache.new .Gary "x.jpg".toList).2 .Goober
      "x.jpg".toList [9] (by decide)⟩

/-- C4: after `update_files(k, L)` the file count for `k` is the length
of `L`, `get_random_file(k)` returns none exactly when `L` is empty, and
every returned file is an element of `L`. -/
theorem update_files_spec (c : FileCache) (k : ResourceType) (L : List Str) (rnd : Nat) :
    (c.update_files k L).file_count k = L.length ∧
    ((c.update_files k L).get_random_file k rnd = none ↔ L = []) ∧
    (∀ f, (c.update_files k L).get_random_file k rnd = some f → f ∈ L) := by
  have hfiles : (c.update_files k L).get_files k = L := by
    cases k <;> rfl
  refine ⟨?_, ?_, ?_⟩
  · simp [FileCache.file_count, hfiles]
  · by_cases hL : L = []
    · subst hL
      simp [FileCache.get_random_file, hfiles]
    · have hne : L.isEmpty = false := by simp [hL]
      have hlen : 0 < L.length := List.length_pos.mpr hL
      have hidx : FileCache.random_index rnd L.length < L.length :=
        Nat.mod_lt _ hlen
      simp only [FileCache.get_random_file, hfiles, hne, Bool.false_eq_true, if_false]
      rw [List.get?_eq_get hidx]
      simp [hL]
  · intro f hf
    by_cases hL : L = []
    · subst hL
      simp [FileCache.get_random_file, hfiles] at hf
    · have hne : L.isEmpty = false := by simp [hL]
      simp only [FileCache.get_random_file, hfiles, hne, Bool.false_eq_true, if_false] at hf
      exact List.get?_mem hf

/-- Witness for C4 at a concrete singleton list. -/
theorem update_files_spec_witness :
    ((FileCache.new.update_files .Gary ["a.jpg".toList]).get_random_file .Gary 0 =
       some "a.jpg".toList) ∧
    ((FileCache.new.update_files .Gary ["a.jpg".toList]).file_count .Gary = 1 ∧
     ((FileCache.new.update_files .Gary ["a.jpg".toList]).get_random_file .Gary 0 = none ↔
       (["a.jpg".toList] : List Str) = []) ∧
     "a.jpg".toList ∈ (["a.jpg".toList] : List Str)) :=
  ⟨by decide,
    (update_files_spec FileCache.new .Gary ["a.jpg".toList] 0).1,
    (update_files_spec FileCache.new .Gary ["a.jpg".toList] 0).2.1,
    (update_files_spec FileCache.new .Gary ["a.jpg".toList] 0).2.2 "a.jpg".toList (by decide)⟩

/-! The 1 MiB invariant of the image byte-cache (C3). -/

/-- Every entry of the image byte-cache is strictly below the size gate. -/
def BoundedImageCache (c : FileCache) : Prop :=
  ∀ e ∈ c.image_cache, e.2.length < sizeGate

theorem bounded_store (c : FileCache) (k : Str) (v : Bytes)
    (hc : BoundedImageCache c) (hv : v.length < sizeGate) :
    BoundedImageCache (c.store_image k v) := by
  intro e he
  simp only [FileCache.store_image] at he
  rcases List.mem_cons.mp he with he | he
  · rw [he]
    exact hv
  · exact hc e (List.mem_of_mem_filter he)

theorem bounded_preload (entries : List DirEntry) (c : FileCache)
    (hc : BoundedImageCache c) : BoundedImageCache (preload_images entries c) := by
  induction entries generalizing c with
  | nil => exact hc
  | cons e rest ih =>
    by_cases h : (e.is_file && decide (e.content.length < sizeGate)) = true
    · simp only [preload_images, h, if_true]
      simp only [Bool.and_eq_true, decide_eq_true_eq] at h
      exact ih _ (bounded_store _ _ _ hc h.2)
    · simp only [preload_images, h, if_false]
      exact ih _ hc

theorem bounded_serve (fs : ReadFs) (config : Config) (c : FileCache)
    (resource : ResourceType) (filename : Str) (hc : BoundedImageCache c) :
    BoundedImageCache (serve_image_file fs config c resource filename).2 := by
  simp only [serve_image_file]
  cases hgi : c.get_image (CacheKey.from_filename filename) with
  | some content =>
    simp only [hgi]
    exact hc
  | none =>
    simp only [hgi]
    cases hfs : fs (DirectoryPath.join (config.dir_for resource) filename) with
    | ok content =>
      by_cases hlen : content.length < sizeGate
      · simp only [hfs, hlen, if_true]
        exact bounded_store _ _ _ hc hlen
      · simp only [hfs, hlen, if_false]
        exact hc
    | error e =>
      simp only [hfs]
      exact hc

theorem reachable_bounded (c : FileCache) (hc : ReachableCache c) :
    BoundedImageCache c := by
  induction hc with
  | empty => intro e he; simp [FileCache.new] at he
  | preload entries _ ih => exact bounded_preload _ _ ih
  | serve fs config resource filename _ ih => exact bounded_serve _ _ _ _ _ ih
  | update_files resource files _ ih => cases resource <;> exact ih
  | update_quotes quotes _ ih => exact ih
  | update_jokes jokes _ ih => exact ih

/-- C3: in every cache state reachable from the empty cache through the
loader's preload and whole-list updates and the dispatcher's
read-through population, every cached image is strictly below the 1 MiB
size gate — both insertion paths refuse larger payloads. -/
theorem image_cache_entries_below_gate (c : FileCache) (hc : ReachableCache c)
    (k : Str) (v : Bytes) (hv : c.get_image k = some v) : v.length < sizeGate := by
  obtain ⟨k', hk'⟩ := lookup_mem c.image_cache k v hv
  exact reachable_bounded c hc (k', v) hk'

/-- Witness for C3 at a state reached by one preload of one small file. -/
theorem image_cache_entries_below_gate_witness :
    (ReachableCache (preload_images [DirEntry.mk "a.jpg".toList [1, 2, 3] true] FileCache.new) ∧
     (preload_images [DirEntry.mk "a.jpg".toList [1, 2, 3] true] FileCache.new).get_image
        "a.jpg".toList = some [1, 2, 3]) ∧
    ([1, 2, 3] : Bytes).length < sizeGate :=
  ⟨⟨ReachableCache.preload [DirEntry.mk "a.jpg".toList [1, 2, 3] true] ReachableCache.empty,
      by decide⟩,
    image_cache_entries_below_gate _
      (ReachableCache.preload [DirEntry.mk "a.jpg".toList [1, 2, 3] true] ReachableCache.empty)
      "a.jpg".toList [1, 2, 3] (by decide)⟩


/-! The extension characterization (C9). -/

/-- Position `i` holds the last `.` of `s`. -/
def IsLastDotAt (s : Str) (i : Nat) : Prop :=
  s.get? i = some '.' ∧ ∀ j, j < s.length → i < j → s.get? j ≠ some '.'

instance (s : Str) (i : Nat) : Decidable (IsLastDotAt s i) := by
  unfold IsLastDotAt
  infer_instance

theorem get?_some_lt {α : Type} (s : List α) (n : Nat) (a : α)
    (h : s.get? n = some a) : n < s.length := by
  by_contra hn
  rw [List.get?_eq_none.mpr (by omega)] at h
  cases h

theorem rfindDot_eq_none (s : Str) : rfindDot s = none ↔ '.' ∉ s := by
  induction s with
  | nil => simp [rfindDot]
  | cons c cs ih =>
    cases h : rfindDot cs with
    | some i =>
      have hmem : '.' ∈ cs := by
        by_contra hn
        rw [ih.mpr hn] at h
        cases h
      simp [rfindDot, h, hmem]
    | none =>
      have hnot : '.' ∉ cs := ih.mp h
      by_cases hc : c = '.'
      · simp [rfindDot, h, hc]
      · have hc' : ('.' : Char) ≠ c := fun he => hc he.symm
        simp [rfindDot, h, hc, hc', hnot]

theorem rfindDot_isLastDot (s : Str) (i : Nat) (h : rfindDot s = some i) :
    IsLastDotAt s i := by
  induction s generalizing i with
  | nil => simp [rfindDot] at h
  | cons c cs ih =>
    simp only [rfindDot] at h
    cases hcs : rfindDot cs with
    | some j =>
      rw [hcs] at h
      have hij : i = j + 1 := by
        injection h with h
        omega
      subst hij
      have hj := ih j hcs
      constructor
      · simpa using hj.1
      · intro m hm him
        cases m with
        | zero => omega
        | succ m' =>
          intro hne
          have hm' : m' < cs.length := by simpa using hm
          exact hj.2 m' hm' (by omega) (by simpa using hne)
    | none =>
      rw [hcs] at h
      by_cases hc : c = '.'
      · rw [if_pos hc] at h
        have hi : i = 0 := by
          injection h with h
          omega
        subst hi
        constructor
        · simp [hc]
        · intro j hj hij
          cases j with
          | zero => omega
          | succ j' =>
            intro hne
            have hmem : '.' ∈ cs := List.get?_mem (by simpa using hne)
            exact ((rfindDot_eq_none cs).mp hcs) hmem
      · rw [if_neg hc] at h
        cases h

theorem isLastDot_unique (s : Str) (i j : Nat)
    (hi : IsLastDotAt s i) (hj : IsLastDotAt s j) : i = j := by
  by_contra hne
  rcases Nat.lt_or_ge i j with h | h
  · exact hi.2 j (get?_some_lt s j '.' hj.1) h hj.1
  · have hij : j < i := by omega
    exact hj.2 i (get?_some_lt s i '.' hi.1) hij hi.1

theorem isLastDot_rfindDot (s : Str) (i : Nat) (h : IsLastDotAt s i) :
    rfindDot s = some i := by
  have hmem : '.' ∈ s := List.get?_mem h.1
  cases hr : rfindDot s with
  | none => exact absurd hmem ((rfindDot_eq_none s).mp hr)
  | some j =>
    have hj := rfindDot_isLastDot s j hr
    rw [isLastDot_unique s i j h hj]

theorem extension_eq_of_rfind (s : Str) (i : Nat) (h : rfindDot s = some i) :
    FileName.extension s =
      if 0 < i ∧ i < s.length - 1 then some (s.drop (i + 1)) else none := by
  unfold FileName.extension
  rw [h]

theorem extension_eq_of_rfind_none (s : Str) (h : rfindDot s = none) :
    FileName.extension s = none := by
  unfold FileName.extension
  rw [h]

/-- C9: `extension()` returns none exactly when the name has no `.`, or
its last `.` is the first or the final character; otherwise it returns
the substring strictly after the last `.`. -/
theorem extension_spec (s : Str) :
    (FileName.extension s = none ↔
      ('.' ∉ s ∨ ∃ i, IsLastDotAt s i ∧ (i = 0 ∨ i = s.length - 1))) ∧
    (∀ i, IsLastDotAt s i → 0 < i → i + 1 < s.length →
      FileName.extension s = some (s.drop (i + 1))) := by
  constructor
  · cases hr : rfindDot s with
    | none =>
      simp [extension_eq_of_rfind_none s hr, (rfindDot_eq_none s).mp hr]
    | some i =>
      have hlast := rfindDot_isLastDot s i hr
      have hmem : '.' ∈ s := List.get?_mem hlast.1
      have hilen : i < s.length := get?_some_lt s i '.' hlast.1
      rw [extension_eq_of_rfind s i hr]
      by_cases hcond : 0 < i ∧ i < s.length - 1
      · rw [if_pos hcond]
        refine iff_of_false (by simp) ?_
        rintro (hnot | ⟨j, hj, hj0⟩)
        · exact hnot hmem
        · have hij := isLastDot_unique s i j hlast hj
          rcases hj0 with h0 | h0 <;> omega
      · rw [if_neg hcond]
        refine iff_of_true rfl (Or.inr ⟨i, hlast, ?_⟩)
        omega
  · intro i hi h0 hlen
    have hr := isLastDot_rfindDot s i hi
    rw [extension_eq_of_rfind s i hr, if_pos ⟨h0, by omega⟩]

/-- Witness for C9 at `pic.jpg`, whose last dot sits at index 3. -/
theorem extension_spec_witness :
    (IsLastDotAt "pic.jpg".toList 3 ∧ 0 < 3 ∧ 3 + 1 < "pic.jpg".toList.length) ∧
    FileName.extension "pic.jpg".toList = some ("pic.jpg".toList.drop 4) :=
  ⟨⟨by decide, by decide, by decide⟩,
    (extension_spec "pic.jpg".toList).2 3 (by decide) (by decide) (by decide)⟩

/-- C2 (failing case): for the one-character array element `"` the code
takes the serde fallback, but `trim_matches('"')` also strips the final
quote of serde's escape `\"`, leaving the blob `\`; spliced between
double quotes that blob is not a valid JSON string literal (the
backslash escapes the closing delimiter), so the stored blob does not
denote the original element. -/
theorem escape_json_string_quote_bug :
    (['"'] : Str).all is_safe_char = false ∧
    serde_to_string ['"'] = ['"', '\\', '"', '"'] ∧
    escape_json_string ['"'] = ['\\'] ∧
    json_unescape (escape_json_string ['"']) = none := by
  decide


end GaryApi
